import Mathlib

/-!
Shallow embedding of the payjoin engine of this repository, covering:

* the confirmation tracker of `src/payment/payjoin/handler.rs`
  (`finalise_payjoin_transaction`, `internal_transactions_confirmed`,
  `best_block_updated`);
* the synchronous part of `PayjoinPayment::send` / `send_with_amount` and the
  spawned polling loop of `src/payment/payjoin/mod.rs`;
* the receiver pipeline `handle_pj_request` / `try_contributing_inputs` of
  `src/payjoin.rs`;
* the sender-side input reconciliation of
  `PayjoinSender::finalise_payjoin_transaction` in `src/payjoin_sender.rs`.

Txids, block hashes, scripts and addresses are abstracted as natural numbers;
u32 chain heights are naturals with explicit wrap-around `% 2^32` where the
source performs unchecked u32 subtraction.  Fallible Rust code (including
panics via `unwrap` / `unreachable`) is modelled with `Except`.
-/

namespace LdkNodePayjoin

/-- A transaction output (`bitcoin::TxOut`): value in sats and an abstract
script pubkey. -/
structure TxOutM where
  value : Nat
  script_pubkey : Nat
deriving DecidableEq, Repr

/-- A transaction (`bitcoin::Transaction`), abstracted to its txid and its
output list.  The txid is kept as a field, abstracting the hash of the
transaction body. -/
structure TxM where
  txid : Nat
  output : List TxOutM
deriving DecidableEq, Repr

/-- The payment events of the crate that the payjoin code emits
(`Event::PayjoinPaymentSuccess`, `Event::PayjoinPaymentPending`,
`Event::PayjoinPaymentFailed`).  The misspelled field name `receipient` is
kept from the source. -/
inductive Event where
  | payjoinPaymentSuccess (txid amount receipient : Nat)
  | payjoinPaymentPending (txid amount receipient : Nat)
  | payjoinPaymentFailed (receipient amount : Nat) (reason : String)
deriving DecidableEq, Repr

/-- The subset of `crate::error::Error` variants reachable from the embedded
code. -/
inductive Error where
  | payjoinReceiverRequestValidationFailed
  | payjoinRequestMissingAmount
  | notRunning
  | payjoinUnavailable
  | payjoinUriInvalid
  | invalidNetwork
  | walletError
deriving DecidableEq, Repr

/-- A checked payment URI (`payjoin::Uri`): the receiver address and the
optional embedded amount. -/
structure PjUriM where
  address : Nat
  amount : Option Nat
deriving DecidableEq, Repr

/-- `PayjoinTransaction` of `src/payment/payjoin/handler.rs`: a tracked
transaction awaiting confirmations. -/
inductive PayjoinTransaction where
  | pendingFirstConfirmation (tx : TxM)
      (receiver amount first_broadcast_height first_broadcast_hash : Nat)
  | pendingThresholdConfirmations (tx : TxM)
      (receiver amount first_broadcast_height first_broadcast_hash
        first_confirmation_height first_confirmation_hash : Nat)
deriving DecidableEq, Repr

namespace PayjoinTransaction

/-- `PayjoinTransaction::txid` (handler.rs lines 41-46). -/
def txid : PayjoinTransaction → Option Nat
  | pendingFirstConfirmation tx _ _ _ _ => some tx.txid
  | pendingThresholdConfirmations tx _ _ _ _ _ _ => some tx.txid

/-- `PayjoinTransaction::first_confirmation_height` (handler.rs lines 47-54). -/
def first_confirmation_height : PayjoinTransaction → Option Nat
  | pendingFirstConfirmation _ _ _ _ _ => none
  | pendingThresholdConfirmations _ _ _ _ _ h _ => some h

/-- `PayjoinTransaction::amount` (handler.rs lines 55-60). -/
def amount : PayjoinTransaction → Nat
  | pendingFirstConfirmation _ _ a _ _ => a
  | pendingThresholdConfirmations _ _ a _ _ _ _ => a

/-- `PayjoinTransaction::receiver` (handler.rs lines 61-66). -/
def receiver : PayjoinTransaction → Nat
  | pendingFirstConfirmation _ r _ _ _ => r
  | pendingThresholdConfirmations _ r _ _ _ _ _ => r

/-- Position of a tracked entry in the forward progression
`PendingFirstConfirmation` (1) to `PendingThresholdConfirmations` (2). -/
def rank : PayjoinTransaction → Nat
  | pendingFirstConfirmation _ _ _ _ _ => 1
  | pendingThresholdConfirmations _ _ _ _ _ _ _ => 2

end PayjoinTransaction

/-- The mutable state owned by `PayjoinHandler`: the cached best block
(height, hash) and the tracked-transaction vector. -/
structure HandlerState where
  best_known_block : Option (Nat × Nat)
  transactions : List PayjoinTransaction
deriving DecidableEq, Repr

/-- `lightning::chain::channelmonitor::ANTI_REORG_DELAY`, the fixed safety
constant imported by handler.rs. -/
def ANTI_REORG_DELAY : Nat := 6

/-- Wrapping u32 subtraction, the release-mode meaning of `a - b` on `u32`
for `a b < 2^32` (debug builds panic on underflow instead). -/
def sub32 (a b : Nat) : Nat := (2 ^ 32 + a - b) % 2 ^ 32

/-- `PayjoinHandler::finalise_payjoin_transaction` (handler.rs lines
113-140).  Parameters standing for external collaborators: `sign_result` is
the outcome of `wallet.sign_payjoin_proposal`, `is_mine` is the wallet
ownership predicate, and `tx` is the transaction extracted from the signed
proposal PSBT.  Returns the transaction, the updated state, and the list of
`register_tx` calls made. -/
def finalise_payjoin_transaction (is_mine : Nat → Bool)
    (sign_result : Except Error Unit) (tx : TxM) (payjoin_uri : PjUriM)
    (s : HandlerState) : Except Error (TxM × HandlerState × List (Nat × Nat)) :=
  match sign_result with
  | .error e => .error e
  | .ok _ =>
    match tx.output.find? (fun output => is_mine output.script_pubkey) with
    | some our_input =>
      match s.best_known_block with
      | some (current_height, current_hash) =>
        .ok (tx,
          { s with transactions := s.transactions ++
              [.pendingFirstConfirmation tx payjoin_uri.address
                (payjoin_uri.amount.getD 0) current_height current_hash] },
          [(tx.txid, our_input.script_pubkey)])
      | none => .error .payjoinReceiverRequestValidationFailed
    | none => .error .payjoinReceiverRequestValidationFailed

/-- Fusion of `iter().position(p)` followed by `Vec::remove(position)` as used
in handler.rs lines 148-155: returns the first element satisfying `p`
together with the vector with exactly that element removed (order of the
remaining elements preserved, as `Vec::remove` does). -/
def removeFirst (p : α → Bool) : List α → Option (α × List α)
  | [] => none
  | a :: as =>
    if p a then some (a, as)
    else
      match removeFirst p as with
      | some (b, bs) => some (b, a :: bs)
      | none => none

/-- `PayjoinHandler::internal_transactions_confirmed` (handler.rs lines
142-178), acting on the tracked-transaction vector.  `header_hash` stands for
`header.block_hash()`.  `Except.error ()` models a panic: indexing `txdata[0]`
on an empty slice, or the `unreachable!()` arm for an already-confirmed
entry. -/
def internal_transactions_confirmed (header_hash : Nat) (txdata : List TxM)
    (height : Nat) (transactions : List PayjoinTransaction) :
    Except Unit (List PayjoinTransaction) :=
  match txdata with
  | [] => .error ()
  | tx :: _ =>
    let confirmed_tx_txid := tx.txid
    match removeFirst (fun o => o.txid == some confirmed_tx_txid) transactions with
    | none => .ok transactions
    | some (pj_tx, rest) =>
      match pj_tx with
      | .pendingFirstConfirmation t receiver amount first_broadcast_height
          first_broadcast_hash =>
        .ok (rest ++ [.pendingThresholdConfirmations t receiver amount
          first_broadcast_height first_broadcast_hash height header_hash])
      | .pendingThresholdConfirmations _ _ _ _ _ _ _ => .error ()

/-- The `transactions.retain(..)` sweep of `best_block_updated` (handler.rs
lines 201-217): walks the vector in order, keeps entries below the threshold
(or without a first confirmation), and for each removed entry emits one
`PayjoinPaymentSuccess` event.  The threshold test is the unchecked u32
subtraction `height - first_conf >= ANTI_REORG_DELAY`, modelled with
wrapping `sub32`. -/
def sweep (height : Nat) :
    List PayjoinTransaction → List PayjoinTransaction × List Event
  | [] => ([], [])
  | t :: rest =>
    match t.first_confirmation_height, t.txid with
    | some first_conf, some x =>
      if ANTI_REORG_DELAY ≤ sub32 height first_conf then
        ((sweep height rest).1,
         Event.payjoinPaymentSuccess x t.amount t.receiver ::
           (sweep height rest).2)
      else (t :: (sweep height rest).1, (sweep height rest).2)
    | _, _ => (t :: (sweep height rest).1, (sweep height rest).2)

/-- `PayjoinHandler::best_block_updated` (handler.rs lines 198-218): records
the new best block, then sweeps the tracked set; returns the new state and
the emitted events in order. -/
def best_block_updated (header_hash height : Nat) (s : HandlerState) :
    HandlerState × List Event :=
  ({ best_known_block := some (height, header_hash),
     transactions := (sweep height s.transactions).1 },
   (sweep height s.transactions).2)

/-- The three operations that touch the tracked-transaction set, for stating
the tracker invariant. -/
inductive TrackerOp where
  | finalise (is_mine : Nat → Bool) (tx : TxM) (uri : PjUriM)
  | confirm (header_hash : Nat) (txdata : List TxM) (height : Nat)
  | tip (header_hash height : Nat)

/-- One tracker operation applied to the handler state; `Except.error ()`
collapses both error returns and panics (the invariant claims quantify over
completed operations). -/
def applyOp : TrackerOp → HandlerState → Except Unit (HandlerState × List Event)
  | .finalise is_mine tx uri, s =>
    match finalise_payjoin_transaction is_mine (.ok ()) tx uri s with
    | .ok (_, s2, _) => .ok (s2, [])
    | .error _ => .error ()
  | .confirm header_hash txdata height, s =>
    match internal_transactions_confirmed header_hash txdata height
        s.transactions with
    | .ok txs => .ok ({ s with transactions := txs }, [])
    | .error _ => .error ()
  | .tip header_hash height, s =>
    let (s2, events) := best_block_updated header_hash height s
    .ok (s2, events)

/-- Number of tracked entries carrying txid `x`. -/
def txidCount (txs : List PayjoinTransaction) (x : Nat) : Nat :=
  txs.countP (fun t => t.txid == some x)

/-- Uniqueness part of the tracker invariant: each txid appears at most once
in the tracked set. -/
def uniqueTxids (txs : List PayjoinTransaction) : Prop :=
  ∀ x, txidCount txs x ≤ 1

/-- First tracked entry carrying txid `x`. -/
def findTx (txs : List PayjoinTransaction) (x : Nat) : Option PayjoinTransaction :=
  txs.find? (fun t => t.txid == some x)

/-- Freshness side condition of the amended invariant: `finalise` inserts
without a duplicate check, so its transaction must not be tracked already. -/
def freshOp : TrackerOp → List PayjoinTransaction → Prop
  | .finalise _ tx _, txs => txidCount txs tx.txid = 0
  | .confirm _ _ _, _ => True
  | .tip _ _, _ => True

/-! ### The synchronous part of `PayjoinPayment::send` (mod.rs lines 126-145)

External collaborators appear as parameters: `running` is whether the runtime
lock holds a runtime, `sender_available` whether the handler is configured,
`parsed_uri` the result of URI parsing, `network_ok` the result of
`require_network`, and `build_ok` the outcome of
`wallet.build_payjoin_transaction`. -/

/-- What the synchronous part of `send` produced: its return value, whether a
background task was spawned, the events emitted before returning, and the
amount handed to `wallet.build_payjoin_transaction` (if reached). -/
structure SendResult where
  returned : Except Error Unit
  spawned : Bool
  events : List Event
  amountUsed : Option Nat
deriving Repr

/-- The synchronous prefix of `PayjoinPayment::send` (mod.rs lines 126-145):
runtime check, handler check, URI parse, network check, amount resolution
from the URI, transaction build, then the task spawn.  Every early return
happens with no task spawned and no events emitted. -/
def send_sync (running sender_available : Bool) (parsed_uri : Option PjUriM)
    (network_ok build_ok : Bool) : SendResult :=
  if running = false then ⟨.error .notRunning, false, [], none⟩
  else if sender_available = false then ⟨.error .payjoinUnavailable, false, [], none⟩
  else
    match parsed_uri with
    | none => ⟨.error .payjoinUriInvalid, false, [], none⟩
    | some payjoin_uri =>
      if network_ok = false then ⟨.error .invalidNetwork, false, [], none⟩
      else
        match payjoin_uri.amount with
        | none => ⟨.error .payjoinRequestMissingAmount, false, [], none⟩
        | some amount_to_send =>
          if build_ok = false then
            ⟨.error .walletError, false, [], some amount_to_send⟩
          else ⟨.ok (), true, [], some amount_to_send⟩

/-- `PayjoinPayment::send_with_amount` (mod.rs lines 237-248): parse the URI,
check the network, overwrite the URI amount with `amount_sats`, serialize and
call `send`.  The URI string round-trip is lossless (payment URI contract),
so the recursive call receives the same URI with the overwritten amount. -/
def send_with_amount (running sender_available : Bool)
    (parsed_uri : Option PjUriM) (network_ok build_ok : Bool)
    (amount_sats : Nat) : SendResult :=
  match parsed_uri with
  | none => ⟨.error .payjoinUriInvalid, false, [], none⟩
  | some payjoin_uri =>
    if network_ok = false then ⟨.error .invalidNetwork, false, [], none⟩
    else
      send_sync running sender_available
        (some { payjoin_uri with amount := some amount_sats }) network_ok
        build_ok

/-! ### The spawned polling loop of `send` (mod.rs lines 145-208)

The loop is modelled in virtual time (abstract time units).  State before
each `loop` iteration: the current instant `now`, the next scheduled tick of
the `tokio::time::interval` (created once, before the loop, with an
immediate first tick), whether the loop has exited, and the events emitted so
far.  Each iteration races a FRESH `tokio::time::sleep(TOTAL)` — recreated
inside the `select!` on every iteration, exactly as in the source — against
`interval.tick()`.  The tick completes at its scheduled time, or immediately
when overdue; the branch that is ready strictly first wins, and an
equal-readiness race is resolved here in favour of the timeout branch (the
theorems show even this concession never lets the timeout fire). -/

/-- Loop state of the spawned sender task. -/
structure LoopState where
  now : Nat
  nextTick : Nat
  done : Bool
  events : List Event
deriving DecidableEq, Repr

/-- One iteration of the spawned loop in the scenario where the relay always
answers with an empty body, so `context.process_response` yields `Ok(None)`
and the tick branch ends in `continue`.  `d` is the time the tick body takes
(request building plus the bounded HTTP round trip).  `receiver` and
`amount` are the URI address and resolved amount captured by the task. -/
def loopStep (TOTAL INTERVAL d receiver amount : Nat) (s : LoopState) :
    LoopState :=
  if s.done then s
  else
    let tickReady := max s.now s.nextTick
    let sleepReady := s.now + TOTAL
    if tickReady < sleepReady then
      { s with now := tickReady + d, nextTick := s.nextTick + INTERVAL }
    else
      { s with done := true,
               events := s.events ++
                 [Event.payjoinPaymentFailed receiver amount
                   "Payjoin request timed out."] }

/-- The spawned loop after `n` iterations, started at instant 0 with the
interval created at spawn time (first tick immediately ready). -/
def loopRun (TOTAL INTERVAL receiver amount : Nat) (d : Nat → Nat) :
    Nat → LoopState
  | 0 => ⟨0, 0, false, []⟩
  | n + 1 =>
    loopStep TOTAL INTERVAL (d n) receiver amount
      (loopRun TOTAL INTERVAL receiver amount d n)

/-! ### Receiver pipeline (`src/payjoin.rs`) -/

/-- `bitcoin::OutPoint`. -/
structure OutPointM where
  txid : Nat
  vout : Nat
deriving DecidableEq, Repr

/-- `bdk::LocalUtxo`, restricted to the fields the code reads. -/
structure LocalUtxo where
  outpoint : OutPointM
  txout : TxOutM
deriving DecidableEq, Repr

/-- The provisional proposal, abstracted to the receiver inputs contributed
so far (`contribute_witness_input` calls, in order). -/
structure ProvisionalProposalM where
  contributed_inputs : List (TxOutM × OutPointM)
deriving DecidableEq, Repr

/-- `Receiver::try_contributing_inputs` (payjoin.rs lines 157-195).
`try_preserving_privacy` is the external selection rule of the payjoin
crate, abstracted as a function from the candidate (value, outpoint) map to
an optional selected outpoint (`none` standing for a `SelectionError`).
`Except.error ()` models the panics of the two `unwrap` calls: one on a
selection failure and one on a selected outpoint absent from the candidate
list. -/
def try_contributing_inputs
    (try_preserving_privacy : List (Nat × OutPointM) → Option OutPointM)
    (provisional_proposal : ProvisionalProposalM) (unspent : List LocalUtxo) :
    Except Unit ProvisionalProposalM :=
  let available_inputs := unspent
  let candidate_inputs :=
    available_inputs.map (fun i => (i.txout.value, i.outpoint))
  match try_preserving_privacy candidate_inputs with
  | none => .error ()
  | some selected_outpoint =>
    match available_inputs.find? (fun i =>
        i.outpoint.txid == selected_outpoint.txid &&
        i.outpoint.vout == selected_outpoint.vout) with
    | none => .error ()
    | some selected_utxo =>
      .ok { provisional_proposal with
            contributed_inputs := provisional_proposal.contributed_inputs ++
              [(⟨selected_utxo.txout.value, selected_utxo.txout.script_pubkey⟩,
                ⟨selected_utxo.outpoint.txid, selected_utxo.outpoint.vout⟩)] }

/-- Whether an event is a `PayjoinPaymentSuccess` for txid `x`. -/
def isSuccessFor (x : Nat) : Event → Bool
  | .payjoinPaymentSuccess t _ _ => t == x
  | _ => false

/-- An incoming receiver request, abstracted to the outcome of each external
check the handler unwraps, in pipeline order, plus the final serialized
proposal payload.  The stage outcomes are produced by the payjoin crate on
the raw request; the handler itself only sequences them. -/
structure PjRequest where
  parse_ok : Bool
  broadcast_ok : Bool
  inputs_not_owned_ok : Bool
  no_mixed_scripts_ok : Bool
  inputs_unseen_ok : Bool
  identify_outputs_ok : Bool
  selection_ok : Bool
  finalize_ok : Bool
  psbt_payload : String
deriving DecidableEq, Repr

/-- The distinct panics of `handle_pj_request`: every failing stage aborts
through `unwrap`, each with its own stage-specific panic message (modelled by
the distinct constructors).  The panic unwinds the handler task; no HTTP
response body is produced from it. -/
inductive PjPanic where
  | parseFail
  | broadcastFail
  | inputsOwnedFail
  | mixedScriptsFail
  | inputsSeenFail
  | identifyFail
  | selectionFail
  | finalizeFail
deriving DecidableEq, Repr

/-- `Receiver::handle_pj_request` (payjoin.rs lines 80-155): the ordered
stage checks, each failing by panic (`unwrap`), and on full success the
serialized signed proposal PSBT as the response body. -/
def handle_pj_request (r : PjRequest) : Except PjPanic String :=
  if r.parse_ok = false then .error .parseFail
  else if r.broadcast_ok = false then .error .broadcastFail
  else if r.inputs_not_owned_ok = false then .error .inputsOwnedFail
  else if r.no_mixed_scripts_ok = false then .error .mixedScriptsFail
  else if r.inputs_unseen_ok = false then .error .inputsSeenFail
  else if r.identify_outputs_ok = false then .error .identifyFail
  else if r.selection_ok = false then .error .selectionFail
  else if r.finalize_ok = false then .error .finalizeFail
  else .ok r.psbt_payload

/-- The HTTP response body the sender can observe from a handler run: the
payload on success, nothing when the handler panicked (the task unwinds
without writing a response). -/
def emitted_response : Except PjPanic String → Option String
  | .ok s => some s
  | .error _ => none

/-- Whether a request fails some stage of the pipeline. -/
def requestFails (r : PjRequest) : Bool :=
  match handle_pj_request r with
  | .error _ => true
  | .ok _ => false

/-! ### Sender-side input reconciliation (`src/payjoin_sender.rs` lines
132-172) -/

/-- A PSBT input map entry, restricted to the UTXO fields the loop copies
plus an abstract stand-in `other` for the remaining per-input data (which
the loop must leave untouched). -/
structure PsbtIn where
  witness_utxo : Option Nat
  non_witness_utxo : Option Nat
  other : Nat
deriving DecidableEq, Repr

/-- Copy the two UTXO fields of an original input onto a proposed input,
leaving the rest of the proposed input unchanged (payjoin_sender.rs lines
150-151). -/
def copyUtxoData (original proposed : PsbtIn) : PsbtIn :=
  { proposed with witness_utxo := original.witness_utxo,
                  non_witness_utxo := original.non_witness_utxo }

/-- The reconciliation loop of `PayjoinSender::finalise_payjoin_transaction`
(payjoin_sender.rs lines 143-155), in the iterative shape of the source: a
fold over the proposal inputs threading the peekable original-input cursor,
accumulating the rewritten proposal inputs in reverse.  Each input is the
pair of its previous output (from `unsigned_tx.input`) and its PSBT input
map entry. -/
def reconcileStep
    (acc : List (OutPointM × PsbtIn) × List (OutPointM × PsbtIn))
    (proposed : OutPointM × PsbtIn) :
    List (OutPointM × PsbtIn) × List (OutPointM × PsbtIn) :=
  match acc.1 with
  | [] => (acc.1, proposed :: acc.2)
  | original :: otail =>
    if proposed.1 = original.1 then
      (otail, (proposed.1, copyUtxoData original.2 proposed.2) :: acc.2)
    else (acc.1, proposed :: acc.2)

/-- `PayjoinSender::finalise_payjoin_transaction` reconciliation
(payjoin_sender.rs lines 143-155) as the iterative fold of the source,
starting from the full original-input cursor and an empty accumulator. -/
def reconcileInputs (originals proposals : List (OutPointM × PsbtIn)) :
    List (OutPointM × PsbtIn) :=
  ((proposals.foldl reconcileStep (originals, [])).2).reverse

/-- The reconciliation as the claim states it: walk both lists in order; a
proposal input matching the previous output of the next unmatched original
input receives that original input UTXO data and advances the cursor; any
other proposal input is passed through unchanged without advancing the
cursor. -/
def reconcileSpec :
    List (OutPointM × PsbtIn) → List (OutPointM × PsbtIn) →
    List (OutPointM × PsbtIn)
  | _, [] => []
  | [], proposed :: ps => proposed :: reconcileSpec [] ps
  | original :: otail, proposed :: ps =>
    if proposed.1 = original.1 then
      (proposed.1, copyUtxoData original.2 proposed.2) ::
        reconcileSpec otail ps
    else proposed :: reconcileSpec (original :: otail) ps

/-! ## Helper lemmas -/

theorem reconcileSpec_nil_right (origs : List (OutPointM × PsbtIn)) :
    reconcileSpec origs [] = [] := by
  cases origs <;> rfl

theorem foldl_reconcileStep :
    ∀ (ps origs acc : List (OutPointM × PsbtIn)),
      (ps.foldl reconcileStep (origs, acc)).2 =
        (reconcileSpec origs ps).reverse ++ acc := by
  intro ps
  induction ps with
  | nil => intro origs acc; simp [reconcileSpec_nil_right]
  | cons p ps ih =>
    intro origs acc
    cases origs with
    | nil =>
      rw [List.foldl_cons]
      show (ps.foldl reconcileStep (reconcileStep ([], acc) p)).2 = _
      rw [show reconcileStep ([], acc) p = ([], p :: acc) from rfl]
      rw [ih [] (p :: acc)]
      simp [reconcileSpec]
    | cons o otail =>
      rw [List.foldl_cons]
      by_cases hmatch : p.1 = o.1
      · rw [show reconcileStep (o :: otail, acc) p =
            (otail, (p.1, copyUtxoData o.2 p.2) :: acc) from by
              simp [reconcileStep, hmatch]]
        rw [ih otail, reconcileSpec, if_pos hmatch]
        simp
      · rw [show reconcileStep (o :: otail, acc) p =
            (o :: otail, p :: acc) from by simp [reconcileStep, hmatch]]
        rw [ih (o :: otail), reconcileSpec, if_neg hmatch]
        simp

theorem sub32_of_le {a b : Nat} (hba : b ≤ a) (ha : a < 2 ^ 32) :
    sub32 a b = a - b := by
  unfold sub32
  rw [Nat.add_sub_assoc hba, Nat.add_mod_left]
  exact Nat.mod_eq_of_lt (by omega)

theorem rank_eq_two_of_confirmation {t : PayjoinTransaction} {fc : Nat}
    (h : t.first_confirmation_height = some fc) : t.rank = 2 := by
  cases t with
  | pendingFirstConfirmation tx r a b c =>
    simp [PayjoinTransaction.first_confirmation_height] at h
  | pendingThresholdConfirmations tx r a b c f g => rfl

theorem sweep_fst_sublist (h : Nat) (l : List PayjoinTransaction) :
    List.Sublist (sweep h l).1 l := by
  induction l with
  | nil => simp [sweep]
  | cons t rest ih =>
    show (sweep h (t :: rest)).1.Sublist (t :: rest)
    rw [sweep]
    split
    · split
      · exact ih.cons t
      · exact ih.cons₂ t
    · exact ih.cons₂ t

theorem sweep_mem_kept_or_rank (h : Nat) (l : List PayjoinTransaction) :
    ∀ t ∈ l, t ∈ (sweep h l).1 ∨ t.rank = 2 := by
  induction l with
  | nil => intro t ht; cases ht
  | cons u rest ih =>
    intro t ht
    rw [sweep]
    rcases List.mem_cons.mp ht with rfl | hmem
    · split
      · rename_i fc x hfc htx
        split
        · exact Or.inr (rank_eq_two_of_confirmation hfc)
        · exact Or.inl (List.mem_cons_self _ _)
      · exact Or.inl (List.mem_cons_self _ _)
    · rcases ih t hmem with hk | hr
      · refine Or.inl ?_
        split
        · split
          · exact hk
          · exact List.mem_cons_of_mem _ hk
        · exact List.mem_cons_of_mem _ hk
      · exact Or.inr hr

theorem sweep_idem (h : Nat) (l : List PayjoinTransaction) :
    sweep h (sweep h l).1 = ((sweep h l).1, []) := by
  induction l with
  | nil => simp [sweep]
  | cons t rest ih =>
    rw [sweep]
    split
    · rename_i fc x hfc htx
      split
      · exact ih
      · rename_i hlt
        show sweep h (t :: (sweep h rest).1) = (t :: (sweep h rest).1, [])
        rw [sweep]
        split
        · rename_i fc2 x2 hfc2 htx2
          rw [hfc] at hfc2
          injection hfc2 with efc
          subst efc
          rw [if_neg hlt, ih]
        · rename_i hother
          exact (hother fc x hfc htx).elim
    · rename_i hother
      show sweep h (t :: (sweep h rest).1) = (t :: (sweep h rest).1, [])
      rw [sweep]
      split
      · rename_i fc2 x2 hfc2 htx2
        exact (hother fc2 x2 hfc2 htx2).elim
      · rw [ih]

theorem sweep_events_sound (h : Nat) (l : List PayjoinTransaction) :
    ∀ e ∈ (sweep h l).2, ∃ t, t ∈ l ∧ ∃ fc x,
      t.first_confirmation_height = some fc ∧ t.txid = some x ∧
      ANTI_REORG_DELAY ≤ sub32 h fc ∧
      e = Event.payjoinPaymentSuccess x t.amount t.receiver := by
  induction l with
  | nil => intro e he; simp [sweep] at he
  | cons t rest ih =>
    intro e he
    rw [sweep] at he
    split at he
    · rename_i fc x hfc htx
      split at he
      · rename_i hge
        rcases List.mem_cons.mp he with rfl | hmem
        · exact ⟨t, List.mem_cons_self _ _, fc, x, hfc, htx, hge, rfl⟩
        · obtain ⟨u, hu, rest_h⟩ := ih e hmem
          exact ⟨u, List.mem_cons_of_mem _ hu, rest_h⟩
      · obtain ⟨u, hu, rest_h⟩ := ih e he
        exact ⟨u, List.mem_cons_of_mem _ hu, rest_h⟩
    · obtain ⟨u, hu, rest_h⟩ := ih e he
      exact ⟨u, List.mem_cons_of_mem _ hu, rest_h⟩

theorem sweep_events_complete (h : Nat) (l : List PayjoinTransaction) :
    ∀ t ∈ l, ∀ fc x, t.first_confirmation_height = some fc →
      t.txid = some x → ANTI_REORG_DELAY ≤ sub32 h fc →
      Event.payjoinPaymentSuccess x t.amount t.receiver ∈ (sweep h l).2 := by
  induction l with
  | nil => intro t ht; cases ht
  | cons u rest ih =>
    intro t ht fc x hfc htx hge
    rw [sweep]
    rcases List.mem_cons.mp ht with rfl | hmem
    · split
      · rename_i fc2 x2 hfc2 htx2
        rw [hfc] at hfc2
        injection hfc2 with efc
        subst efc
        rw [htx] at htx2
        injection htx2 with etx
        subst etx
        rw [if_pos hge]
        exact List.mem_cons_self _ _
      · rename_i hother
        exact (hother fc x hfc htx).elim
    · split
      · rename_i fc2 x2 hfc2 htx2
        split
        · exact List.mem_cons_of_mem _ (ih t hmem fc x hfc htx hge)
        · exact ih t hmem fc x hfc htx hge
      · exact ih t hmem fc x hfc htx hge

theorem sweep_events_count (h x : Nat) (l : List PayjoinTransaction) :
    ((sweep h l).2).countP (isSuccessFor x) ≤
      l.countP (fun t => t.txid == some x) := by
  induction l with
  | nil => simp [sweep]
  | cons t rest ih =>
    rw [sweep, List.countP_cons]
    split
    · rename_i fc x0 hfc htx
      split
      · dsimp only
        rw [List.countP_cons]
        have hsame : isSuccessFor x
            (Event.payjoinPaymentSuccess x0 t.amount t.receiver) =
            (t.txid == some x) := by
          rw [htx]
          by_cases hxx : x0 = x
          · subst hxx; simp [isSuccessFor]
          · simp [isSuccessFor, hxx]
        rw [hsame]
        omega
      · dsimp only
        have hle : ((sweep h rest).2).countP (isSuccessFor x) ≤
            rest.countP (fun t => t.txid == some x) := ih
        omega
    · dsimp only
      have hle : ((sweep h rest).2).countP (isSuccessFor x) ≤
          rest.countP (fun t => t.txid == some x) := ih
      omega

theorem one_le_rank (t : PayjoinTransaction) : 1 ≤ t.rank := by
  cases t <;> simp [PayjoinTransaction.rank]

theorem removeFirst_eq_some {α : Type} {p : α → Bool} :
    ∀ {l : List α} {a : α} {r : List α}, removeFirst p l = some (a, r) →
      ∃ l₁ l₂, l = l₁ ++ a :: l₂ ∧ r = l₁ ++ l₂ ∧
        (∀ b ∈ l₁, p b = false) ∧ p a = true := by
  intro l
  induction l with
  | nil => intro a r h; simp [removeFirst] at h
  | cons c cs ih =>
    intro a r h
    rw [removeFirst] at h
    by_cases hpc : p c = true
    · rw [if_pos hpc] at h
      simp only [Option.some.injEq, Prod.mk.injEq] at h
      obtain ⟨rfl, rfl⟩ := h
      exact ⟨[], cs, rfl, rfl, fun b hb => (List.not_mem_nil b hb).elim, hpc⟩
    · rw [if_neg hpc] at h
      have hpcf : p c = false := by revert hpc; cases p c <;> simp
      cases hrec : removeFirst p cs with
      | none => rw [hrec] at h; simp at h
      | some pr =>
        rcases pr with ⟨b, bs⟩
        rw [hrec] at h
        simp only [Option.some.injEq, Prod.mk.injEq] at h
        obtain ⟨rfl, rfl⟩ := h
        obtain ⟨l₁, l₂, hl, hr, hl₁, hpa⟩ := ih hrec
        refine ⟨c :: l₁, l₂, by rw [hl]; simp, by rw [hr]; simp, ?_, hpa⟩
        intro u hu
        rcases List.mem_cons.mp hu with rfl | hu2
        · exact hpcf
        · exact hl₁ u hu2

theorem find?_append_some {α : Type} {p : α → Bool} {l l' : List α} {a : α}
    (h : l.find? p = some a) : (l ++ l').find? p = some a := by
  rw [List.find?_append, h]; rfl

theorem eq_of_countP_le_one {α : Type} {p : α → Bool} :
    ∀ {l : List α}, l.countP p ≤ 1 → ∀ {a b : α}, a ∈ l → b ∈ l →
      p a = true → p b = true → a = b := by
  intro l
  induction l with
  | nil => intro _ a b ha; cases ha
  | cons c cs ih =>
    intro hc a b ha hb hpa hpb
    rw [List.countP_cons] at hc
    rcases List.mem_cons.mp ha with rfl | ha2
    · rcases List.mem_cons.mp hb with rfl | hb2
      · rfl
      · rw [if_pos hpa] at hc
        have hpos : 0 < cs.countP p := List.countP_pos_iff.mpr ⟨b, hb2, hpb⟩
        omega
    · rcases List.mem_cons.mp hb with rfl | hb2
      · rw [if_pos hpb] at hc
        have hpos : 0 < cs.countP p := List.countP_pos_iff.mpr ⟨a, ha2, hpa⟩
        omega
      · exact ih (le_trans (Nat.le_add_right _ _) hc) ha2 hb2 hpa hpb

theorem txidCount_singleton (e : PayjoinTransaction) (x : Nat) :
    txidCount [e] x ≤ 1 := by
  unfold txidCount
  rw [List.countP_cons]
  simp only [List.countP_nil]
  split <;> omega

theorem countP_append_single {α : Type} (p : α → Bool) (l : List α) (e : α) :
    (l ++ [e]).countP p = l.countP p + if p e = true then 1 else 0 := by
  rw [List.countP_append, List.countP_cons, List.countP_nil, Nat.zero_add]

theorem txid_pendingFirst (tx : TxM) (r a b c : Nat) :
    (PayjoinTransaction.pendingFirstConfirmation tx r a b c).txid =
      some tx.txid := rfl

theorem txid_pendingThreshold (tx : TxM) (r a b c f g : Nat) :
    (PayjoinTransaction.pendingThresholdConfirmations tx r a b c f g).txid =
      some tx.txid := rfl

/-! ## Claim theorems -/

/-- C9: the sender input-metadata reconciliation walks both input lists in
order; a proposal input whose previous output equals that of the next
unmatched original input receives the witness and non-witness UTXO data of
that original input (its other data unchanged) and advances the original
cursor; any other proposal input is passed through unchanged without
advancing the cursor. -/
theorem c9_reconcile_refines_spec
    (originals proposals : List (OutPointM × PsbtIn)) :
    reconcileInputs originals proposals = reconcileSpec originals proposals := by
  rw [reconcileInputs, foldl_reconcileStep]
  simp

/-- C8: any two receiver requests that each fail some stage of the
validation pipeline produce identical emitted responses, regardless of which
stage failed: every failing stage aborts the handler by panic and no
response body reaches the sender. -/
theorem c8_uniform_failure_response (r₁ r₂ : PjRequest)
    (h₁ : requestFails r₁ = true) (h₂ : requestFails r₂ = true) :
    emitted_response (handle_pj_request r₁) =
      emitted_response (handle_pj_request r₂) := by
  have key : ∀ r : PjRequest, requestFails r = true →
      emitted_response (handle_pj_request r) = none := by
    intro r h
    unfold requestFails at h
    cases hr : handle_pj_request r with
    | ok s => rw [hr] at h; simp at h
    | error p => rfl
  rw [key r₁ h₁, key r₂ h₂]

/-- Witness for C8 at two concrete requests failing different stages (one at
the broadcast-suitability check, one at finalization). -/
theorem c8_uniform_failure_response_witness :
    requestFails ⟨true, false, true, true, true, true, true, true, "a"⟩ = true ∧
    requestFails ⟨true, true, true, true, true, true, true, false, "b"⟩ = true ∧
    emitted_response
        (handle_pj_request ⟨true, false, true, true, true, true, true, true, "a"⟩) =
      emitted_response
        (handle_pj_request ⟨true, true, true, true, true, true, true, false, "b"⟩) :=
  ⟨rfl, rfl,
    c8_uniform_failure_response
      ⟨true, false, true, true, true, true, true, true, "a"⟩
      ⟨true, true, true, true, true, true, true, false, "b"⟩ rfl rfl⟩

/-- C7: coin selection contributes at most one receiver input, and a
contributed input is drawn from the candidate UTXO set — but a selection
failure is NOT non-fatal: the handler unwraps the selection error and
panics.  First conjunct: with a failing selection rule the function panics
(models the `unwrap` at payjoin.rs line 174).  Second conjunct: with a
succeeding selection the function contributes exactly the one selected
candidate (value, script and outpoint taken from the candidate set). -/
theorem c7_selection_failure_panics :
    try_contributing_inputs (fun _ => none) ⟨[]⟩
        [⟨⟨11, 0⟩, ⟨50000, 77⟩⟩, ⟨⟨12, 1⟩, ⟨30000, 88⟩⟩] = .error () ∧
    try_contributing_inputs (fun _ => some ⟨12, 1⟩) ⟨[]⟩
        [⟨⟨11, 0⟩, ⟨50000, 77⟩⟩, ⟨⟨12, 1⟩, ⟨30000, 88⟩⟩] =
      .ok ⟨[(⟨30000, 88⟩, ⟨12, 1⟩)]⟩ :=
  ⟨rfl, rfl⟩

/-- C6: with the node running, the handler configured and a valid URI of the
right network, an amount missing from the URI (and no explicit amount, i.e.
the plain `send` entry point) makes `send` return the missing-amount error
synchronously, with no task spawned and no events emitted; and
`send_with_amount` overwrites the URI amount with its explicit argument, so
the explicit amount is the one handed to the wallet regardless of the URI
amount. -/
theorem c6_send_amount_resolution :
    (∀ (build_ok : Bool) (uri : PjUriM), uri.amount = none →
      send_sync true true (some uri) true build_ok =
        ⟨.error .payjoinRequestMissingAmount, false, [], none⟩) ∧
    (∀ (build_ok : Bool) (uri : PjUriM) (amount_sats : Nat),
      (send_with_amount true true (some uri) true build_ok
          amount_sats).amountUsed = some amount_sats) := by
  constructor
  · intro build_ok uri hnone
    simp [send_sync, hnone]
  · intro build_ok uri amount_sats
    cases build_ok <;> simp [send_with_amount, send_sync]

/-- Witness for C6 at a URI with no amount and at an explicit amount of
12345 overriding a URI amount of 80000. -/
theorem c6_send_amount_resolution_witness :
    (PjUriM.mk 3 none).amount = none ∧
    send_sync true true (some ⟨3, none⟩) true true =
      ⟨.error .payjoinRequestMissingAmount, false, [], none⟩ ∧
    (send_with_amount true true (some ⟨3, some 80000⟩) true true
        12345).amountUsed = some 12345 :=
  ⟨rfl, c6_send_amount_resolution.1 true ⟨3, none⟩ rfl,
    c6_send_amount_resolution.2 true ⟨3, some 80000⟩ 12345⟩

/-- C5: `finalise_payjoin_transaction` (with the proposal signed) errors when
the transaction has no wallet-owned output; errors when an owned output
exists but no best block is known yet; and in the successful case appends
exactly one `PendingFirstConfirmation` entry carrying the current tip height
and hash and the URI address and amount, returning the single `register_tx`
call for the transaction. -/
theorem c5_finalise_spec (is_mine : Nat → Bool) (tx : TxM) (uri : PjUriM)
    (s : HandlerState) :
    (tx.output.find? (fun output => is_mine output.script_pubkey) = none →
      finalise_payjoin_transaction is_mine (.ok ()) tx uri s =
        .error .payjoinReceiverRequestValidationFailed) ∧
    (∀ our_input,
      tx.output.find? (fun output => is_mine output.script_pubkey) =
        some our_input →
      s.best_known_block = none →
      finalise_payjoin_transaction is_mine (.ok ()) tx uri s =
        .error .payjoinReceiverRequestValidationFailed) ∧
    (∀ our_input height hash a,
      tx.output.find? (fun output => is_mine output.script_pubkey) =
        some our_input →
      s.best_known_block = some (height, hash) →
      uri.amount = some a →
      finalise_payjoin_transaction is_mine (.ok ()) tx uri s =
        .ok (tx,
          { s with transactions := s.transactions ++
              [.pendingFirstConfirmation tx uri.address a height hash] },
          [(tx.txid, our_input.script_pubkey)])) := by
  refine ⟨?_, ?_, ?_⟩
  · intro hnone
    simp [finalise_payjoin_transaction, hnone]
  · intro our_input hfind hblock
    simp [finalise_payjoin_transaction, hfind, hblock]
  · intro our_input height hash a hfind hblock hamt
    simp [finalise_payjoin_transaction, hfind, hblock, hamt]

/-- Witness for C5 at a concrete transaction with one owned output, a known
tip (10, 99) and a URI amount of 80000. -/
theorem c5_finalise_spec_witness :
    (TxM.mk 1 [⟨100, 7⟩]).output.find?
        (fun output => (fun sc => sc == 7) output.script_pubkey) =
      some ⟨100, 7⟩ ∧
    (HandlerState.mk (some (10, 99)) []).best_known_block = some (10, 99) ∧
    (PjUriM.mk 2 (some 80000)).amount = some 80000 ∧
    finalise_payjoin_transaction (fun sc => sc == 7) (.ok ()) ⟨1, [⟨100, 7⟩]⟩
        ⟨2, some 80000⟩ ⟨some (10, 99), []⟩ =
      .ok (⟨1, [⟨100, 7⟩]⟩,
        ⟨some (10, 99),
          [.pendingFirstConfirmation ⟨1, [⟨100, 7⟩]⟩ 2 80000 10 99]⟩,
        [(1, 7)]) :=
  ⟨rfl, rfl, rfl,
    (c5_finalise_spec (fun sc => sc == 7) ⟨1, [⟨100, 7⟩]⟩ ⟨2, some 80000⟩
        ⟨some (10, 99), []⟩).2.2 ⟨100, 7⟩ 10 99 80000 rfl rfl rfl⟩

/-- C10: on a block-connected notification (non-empty transaction list), if
the first listed transaction matches a tracked entry that is already in the
`PendingThresholdConfirmations` state, `internal_transactions_confirmed`
reaches the `unreachable` arm and panics; it completes without panic exactly
when the matched entry (if any) is still `PendingFirstConfirmation`. -/
theorem c10_confirm_panic_conditions (header_hash height : Nat) (tx : TxM)
    (txdata_rest : List TxM) (txs : List PayjoinTransaction) :
    (∀ e rest,
      removeFirst (fun o => o.txid == some tx.txid) txs = some (e, rest) →
      e.first_confirmation_height ≠ none →
      internal_transactions_confirmed header_hash (tx :: txdata_rest) height
        txs = .error ()) ∧
    (∀ e rest,
      removeFirst (fun o => o.txid == some tx.txid) txs = some (e, rest) →
      e.first_confirmation_height = none →
      ∃ txs2, internal_transactions_confirmed header_hash (tx :: txdata_rest)
        height txs = .ok txs2) ∧
    (removeFirst (fun o => o.txid == some tx.txid) txs = none →
      internal_transactions_confirmed header_hash (tx :: txdata_rest) height
        txs = .ok txs) := by
  refine ⟨?_, ?_, ?_⟩
  · intro e rest hrm hconf
    cases e with
    | pendingFirstConfirmation t r a b c =>
      exact absurd rfl hconf
    | pendingThresholdConfirmations t r a b c f g =>
      simp [internal_transactions_confirmed, hrm]
  · intro e rest hrm hconf
    cases e with
    | pendingFirstConfirmation t r a b c =>
      exact ⟨rest ++ [.pendingThresholdConfirmations t r a b c height
          header_hash],
        by simp [internal_transactions_confirmed, hrm]⟩
    | pendingThresholdConfirmations t r a b c f g =>
      simp [PayjoinTransaction.first_confirmation_height] at hconf
  · intro hrm
    simp [internal_transactions_confirmed, hrm]

/-- Witness for C10 at a tracked set whose single entry for txid 7 is
already in the threshold state: the notification panics. -/
theorem c10_confirm_panic_conditions_witness :
    removeFirst (fun o : PayjoinTransaction => o.txid == some (TxM.mk 7 []).txid)
        [.pendingThresholdConfirmations ⟨7, []⟩ 1 2 3 4 5 6] =
      some (.pendingThresholdConfirmations ⟨7, []⟩ 1 2 3 4 5 6, []) ∧
    internal_transactions_confirmed 9 [⟨7, []⟩] 50
        [.pendingThresholdConfirmations ⟨7, []⟩ 1 2 3 4 5 6] = .error () :=
  ⟨rfl,
    (c10_confirm_panic_conditions 9 50 ⟨7, []⟩ []
        [.pendingThresholdConfirmations ⟨7, []⟩ 1 2 3 4 5 6]).1
      (.pendingThresholdConfirmations ⟨7, []⟩ 1 2 3 4 5 6) [] rfl
      (by simp [PayjoinTransaction.first_confirmation_height])⟩

/-- C2: with the relay always answering empty bodies and the retry interval
shorter than the total duration (the configured relation), the spawned loop
NEVER terminates and never emits any event — in particular it does not emit
the Failed timeout event after the total duration.  The fresh
`sleep(PAYJOIN_REQUEST_TOTAL_DURATION)` created inside the `select` on every
iteration restarts the overall timer, so the tick branch always wins the
race. -/
theorem c2_loop_never_times_out (TOTAL INTERVAL receiver amount : Nat)
    (d : Nat → Nat) (hlt : INTERVAL < TOTAL) :
    ∀ n, (loopRun TOTAL INTERVAL receiver amount d n).done = false ∧
      (loopRun TOTAL INTERVAL receiver amount d n).events = [] := by
  have key : ∀ n,
      (loopRun TOTAL INTERVAL receiver amount d n).done = false ∧
      (loopRun TOTAL INTERVAL receiver amount d n).events = [] ∧
      (loopRun TOTAL INTERVAL receiver amount d n).nextTick ≤
        (loopRun TOTAL INTERVAL receiver amount d n).now + INTERVAL := by
    intro n
    induction n with
    | zero => exact ⟨rfl, rfl, Nat.zero_le _⟩
    | succ n ih =>
      obtain ⟨hdone, hev, hinv⟩ := ih
      have hstep : loopRun TOTAL INTERVAL receiver amount d (n + 1) =
          loopStep TOTAL INTERVAL (d n) receiver amount
            (loopRun TOTAL INTERVAL receiver amount d n) := rfl
      set s := loopRun TOTAL INTERVAL receiver amount d n with hs
      have h1 : s.now ≤ max s.now s.nextTick := Nat.le_max_left _ _
      have h2 : s.nextTick ≤ max s.now s.nextTick := Nat.le_max_right _ _
      have htick : max s.now s.nextTick < s.now + TOTAL := by
        have : max s.now s.nextTick ≤ s.now + INTERVAL :=
          Nat.max_le.mpr ⟨Nat.le_add_right _ _, hinv⟩
        omega
      rw [hstep, loopStep, if_neg (by rw [hdone]; simp), if_pos htick]
      refine ⟨hdone, hev, ?_⟩
      simp only []
      omega
  intro n
  exact ⟨(key n).1, (key n).2.1⟩

/-- Witness for C2 at a total duration of 60 units, a retry interval of 5
units, one-unit request round trips, after 10 iterations. -/
theorem c2_loop_never_times_out_witness :
    5 < 60 ∧
    (loopRun 60 5 7 80000 (fun _ => 1) 10).done = false ∧
    (loopRun 60 5 7 80000 (fun _ => 1) 10).events = [] := by
  refine ⟨by decide, ?_⟩
  exact c2_loop_never_times_out 60 5 7 80000 (fun _ => 1) (by decide) 10

/-- C3 counterexample: a block-connected notification listing two confirmed
transactions, where the SECOND one (txid 7) matches a tracked
`PendingFirstConfirmation` entry, leaves the tracked set completely
unchanged — the matching transaction is not advanced, because the handler
only examines `txdata[0]`. -/
theorem c3_second_tx_ignored_counterexample :
    internal_transactions_confirmed 100 [⟨5, []⟩, ⟨7, []⟩] 50
        [.pendingFirstConfirmation ⟨7, []⟩ 1 2 3 4] =
      .ok [.pendingFirstConfirmation ⟨7, []⟩ 1 2 3 4] ∧
    (PayjoinTransaction.pendingFirstConfirmation ⟨7, []⟩ 1 2
        3 4).first_confirmation_height = none :=
  ⟨rfl, rfl⟩

/-- C3 (amended): only the FIRST transaction of the notification list is
examined.  If its txid matches no tracked entry the tracked set is returned
unchanged (the notification is ignored, not an error); if it matches a
`PendingFirstConfirmation` entry, that entry is advanced to
`PendingThresholdConfirmations` recording the confirming height and the
header hash.  Transactions after the first are never looked at (they appear
here as the arbitrary unused `txdata_rest`). -/
theorem c3_first_tx_only_amended (header_hash height : Nat) (tx : TxM)
    (txdata_rest : List TxM) (txs : List PayjoinTransaction) :
    (removeFirst (fun o => o.txid == some tx.txid) txs = none →
      internal_transactions_confirmed header_hash (tx :: txdata_rest) height
        txs = .ok txs) ∧
    (∀ t receiver amount fbh fbhash rest,
      removeFirst (fun o => o.txid == some tx.txid) txs =
        some (.pendingFirstConfirmation t receiver amount fbh fbhash, rest) →
      internal_transactions_confirmed header_hash (tx :: txdata_rest) height
        txs = .ok (rest ++ [.pendingThresholdConfirmations t receiver amount
          fbh fbhash height header_hash])) := by
  constructor
  · intro hrm
    simp [internal_transactions_confirmed, hrm]
  · intro t receiver amount fbh fbhash rest hrm
    simp [internal_transactions_confirmed, hrm]

/-- Witness for C3 (amended) at a matching first transaction: the entry for
txid 7 is advanced, recording height 50 and header hash 100. -/
theorem c3_first_tx_only_amended_witness :
    removeFirst (fun o : PayjoinTransaction => o.txid == some (TxM.mk 7 []).txid)
        [.pendingFirstConfirmation ⟨7, []⟩ 1 2 3 4] =
      some (.pendingFirstConfirmation ⟨7, []⟩ 1 2 3 4, []) ∧
    internal_transactions_confirmed 100 [⟨7, []⟩, ⟨5, []⟩] 50
        [.pendingFirstConfirmation ⟨7, []⟩ 1 2 3 4] =
      .ok [.pendingThresholdConfirmations ⟨7, []⟩ 1 2 3 4 50 100] :=
  ⟨rfl,
    (c3_first_tx_only_amended 100 50 ⟨7, []⟩ [⟨5, []⟩]
        [.pendingFirstConfirmation ⟨7, []⟩ 1 2 3 4]).2 ⟨7, []⟩ 1 2 3 4 []
      rfl⟩

/-- C1 counterexample: the threshold test is an unchecked u32 subtraction.
A tip update at height 0, BELOW the recorded first-confirmation height 10
(so before the anti-reorg depth can possibly be reached, since
0 < 10 + ANTI_REORG_DELAY), makes the subtraction wrap and the sweep emit a
premature Success event for the tracked transaction. -/
theorem c1_underflow_counterexample :
    (best_block_updated 99 0
        ⟨some (20, 55),
          [.pendingThresholdConfirmations ⟨1, []⟩ 2 3 4 5 10 6]⟩).2 =
      [Event.payjoinPaymentSuccess 1 3 2] ∧
    (0 : Nat) < 10 + ANTI_REORG_DELAY := by
  constructor
  · rfl
  · decide

/-- C1 (amended): provided every tracked first-confirmation height is at
most the tip height (no u32 underflow in the subtraction), a tip update
emits exactly one Success event per qualifying tracked transaction, and
only then: a Success is emitted only for entries whose confirmation depth
has reached `ANTI_REORG_DELAY` (never before); conversely every threshold
entry whose depth HAS reached `ANTI_REORG_DELAY` does get its Success
emitted; with unique txids at most one Success per transaction is emitted;
and because emitted entries are removed from the tracked set, re-delivering
the same tip update emits no further event. -/
theorem c1_tracker_success_amended (header_hash height : Nat)
    (s : HandlerState) (hbound : height < 2 ^ 32)
    (hmono : ∀ t ∈ s.transactions, ∀ fc,
      t.first_confirmation_height = some fc → fc ≤ height) :
    (∀ e ∈ (best_block_updated header_hash height s).2,
      ∃ t, t ∈ s.transactions ∧ ∃ fc x,
        t.first_confirmation_height = some fc ∧ t.txid = some x ∧
        fc + ANTI_REORG_DELAY ≤ height ∧
        e = Event.payjoinPaymentSuccess x t.amount t.receiver) ∧
    (uniqueTxids s.transactions → ∀ x,
      ((best_block_updated header_hash height s).2).countP
        (isSuccessFor x) ≤ 1) ∧
    (best_block_updated header_hash height
        (best_block_updated header_hash height s).1 =
      ((best_block_updated header_hash height s).1, [])) ∧
    (∀ t ∈ s.transactions, ∀ fc x,
      t.first_confirmation_height = some fc → t.txid = some x →
      fc + ANTI_REORG_DELAY ≤ height →
      Event.payjoinPaymentSuccess x t.amount t.receiver ∈
        (best_block_updated header_hash height s).2) := by
  refine ⟨?_, ?_, ?_, ?_⟩
  · intro e he
    obtain ⟨t, htmem, fc, x, hfc, htx, hge, hev⟩ :=
      sweep_events_sound height s.transactions e he
    refine ⟨t, htmem, fc, x, hfc, htx, ?_, hev⟩
    have hfcle : fc ≤ height := hmono t htmem fc hfc
    rw [sub32_of_le hfcle hbound] at hge
    omega
  · intro huniq x
    have h1 : ((sweep height s.transactions).2).countP (isSuccessFor x) ≤
        s.transactions.countP (fun t => t.txid == some x) :=
      sweep_events_count height x s.transactions
    exact le_trans h1 (huniq x)
  · simp only [best_block_updated]
    rw [sweep_idem]
  · intro t ht fc x hfc htx hdepth
    have hfcle : fc ≤ height := by omega
    have hge : ANTI_REORG_DELAY ≤ sub32 height fc := by
      rw [sub32_of_le hfcle hbound]
      omega
    exact sweep_events_complete height s.transactions t ht fc x hfc htx hge

/-- Witness for C1 (amended) at a tracked set holding one threshold entry
confirmed at height 10 and a tip update at height 16 (= 10 +
ANTI_REORG_DELAY): its Success event is emitted (completeness), at most
once, and a re-delivered tip update emits nothing. -/
theorem c1_tracker_success_amended_witness :
    (16 : Nat) < 2 ^ 32 ∧
    ((best_block_updated 5 16
        ⟨some (20, 55),
          [.pendingThresholdConfirmations ⟨1, []⟩ 2 3 4 5 10 6]⟩).2).countP
      (isSuccessFor 1) ≤ 1 ∧
    best_block_updated 5 16
        (best_block_updated 5 16
          ⟨some (20, 55),
            [.pendingThresholdConfirmations ⟨1, []⟩ 2 3 4 5 10 6]⟩).1 =
      ((best_block_updated 5 16
          ⟨some (20, 55),
            [.pendingThresholdConfirmations ⟨1, []⟩ 2 3 4 5 10 6]⟩).1, []) ∧
    Event.payjoinPaymentSuccess 1 3 2 ∈
      (best_block_updated 5 16
        ⟨some (20, 55),
          [.pendingThresholdConfirmations ⟨1, []⟩ 2 3 4 5 10 6]⟩).2 := by
  have hbound : (16 : Nat) < 2 ^ 32 := by norm_num
  have hmono : ∀ t ∈ ([.pendingThresholdConfirmations ⟨1, []⟩ 2 3 4 5 10 6] :
      List PayjoinTransaction), ∀ fc,
      t.first_confirmation_height = some fc → fc ≤ 16 := by
    intro t ht fc hfc
    rcases List.mem_singleton.mp ht with rfl
    simp [PayjoinTransaction.first_confirmation_height] at hfc
    omega
  have huniq : uniqueTxids
      ([.pendingThresholdConfirmations ⟨1, []⟩ 2 3 4 5 10 6] :
        List PayjoinTransaction) := by
    intro x
    exact txidCount_singleton _ x
  have main := c1_tracker_success_amended 5 16
    ⟨some (20, 55), [.pendingThresholdConfirmations ⟨1, []⟩ 2 3 4 5 10 6]⟩
    hbound hmono
  refine ⟨hbound, main.2.1 huniq 1, main.2.2.1, ?_⟩
  exact main.2.2.2 (.pendingThresholdConfirmations ⟨1, []⟩ 2 3 4 5 10 6)
    (List.mem_singleton.mpr rfl) 10 1 rfl rfl (by decide)

/-- C4 counterexample: `finalise_payjoin_transaction` performs no duplicate
check, so finalizing the same transaction twice (both completions succeed)
leaves the tracked set holding the txid twice, violating the at-most-once
part of the claimed invariant. -/
theorem c4_duplicate_insert_counterexample :
    applyOp (.finalise (fun sc => sc == 7) ⟨1, [⟨100, 7⟩]⟩ ⟨2, some 80⟩)
        ⟨some (10, 99), []⟩ =
      .ok (⟨some (10, 99),
        [.pendingFirstConfirmation ⟨1, [⟨100, 7⟩]⟩ 2 80 10 99]⟩, []) ∧
    applyOp (.finalise (fun sc => sc == 7) ⟨1, [⟨100, 7⟩]⟩ ⟨2, some 80⟩)
        ⟨some (10, 99),
          [.pendingFirstConfirmation ⟨1, [⟨100, 7⟩]⟩ 2 80 10 99]⟩ =
      .ok (⟨some (10, 99),
        [.pendingFirstConfirmation ⟨1, [⟨100, 7⟩]⟩ 2 80 10 99,
         .pendingFirstConfirmation ⟨1, [⟨100, 7⟩]⟩ 2 80 10 99]⟩, []) ∧
    txidCount
      [.pendingFirstConfirmation ⟨1, [⟨100, 7⟩]⟩ 2 80 10 99,
       .pendingFirstConfirmation ⟨1, [⟨100, 7⟩]⟩ 2 80 10 99] 1 = 2 :=
  ⟨rfl, rfl, rfl⟩

/-- C4 (amended): provided a transaction is never finalized while its txid
is already tracked (the insert has no duplicate check), every completed
tracker operation preserves txid-uniqueness of the tracked set, entries
present before and after an operation never move backward
(`PendingFirstConfirmation` = rank 1, `PendingThresholdConfirmations` =
rank 2), and an entry that disappears from the set was in the threshold
state (removed-and-reported by the sweep). -/
theorem c4_invariant_amended (op : TrackerOp) (s s2 : HandlerState)
    (evs : List Event) (hok : applyOp op s = .ok (s2, evs))
    (huniq : uniqueTxids s.transactions)
    (hfresh : freshOp op s.transactions) :
    uniqueTxids s2.transactions ∧
    (∀ x t t2, findTx s.transactions x = some t →
      findTx s2.transactions x = some t2 → t.rank ≤ t2.rank) ∧
    (∀ x t, findTx s.transactions x = some t →
      findTx s2.transactions x = none → t.rank = 2) := by
  cases op with
  | finalise is_mine tx uri =>
    simp only [freshOp] at hfresh
    simp only [applyOp] at hok
    cases hfind : tx.output.find? (fun output => is_mine output.script_pubkey) with
    | none =>
      rw [(by simp [finalise_payjoin_transaction, hfind] :
        finalise_payjoin_transaction is_mine (.ok ()) tx uri s =
          .error .payjoinReceiverRequestValidationFailed)] at hok
      simp at hok
    | some our_input =>
      cases hbb : s.best_known_block with
      | none =>
        rw [(by simp [finalise_payjoin_transaction, hfind, hbb] :
          finalise_payjoin_transaction is_mine (.ok ()) tx uri s =
            .error .payjoinReceiverRequestValidationFailed)] at hok
        simp at hok
      | some pr =>
        obtain ⟨bh, bhash⟩ := pr
        rw [(by simp [finalise_payjoin_transaction, hfind, hbb] :
          finalise_payjoin_transaction is_mine (.ok ()) tx uri s =
            .ok (tx, { s with transactions := s.transactions ++
                [.pendingFirstConfirmation tx uri.address
                  (uri.amount.getD 0) bh bhash] },
              [(tx.txid, our_input.script_pubkey)]))] at hok
        simp only [Except.ok.injEq, Prod.mk.injEq] at hok
        obtain ⟨hs2, hevs⟩ := hok
        subst hs2
        refine ⟨?_, ?_, ?_⟩
        · intro x
          unfold txidCount
          dsimp only
          rw [countP_append_single]
          by_cases hx : tx.txid = x
          · subst hx
            have h0 : txidCount s.transactions tx.txid = 0 := hfresh
            unfold txidCount at h0
            rw [h0]
            split <;> omega
          · have hu := huniq x
            unfold txidCount at hu
            split
            · rename_i hcondT
              exfalso
              apply hx
              simpa [txid_pendingFirst] using hcondT
            · omega
        · intro x t t2 h1 h2
          unfold findTx at h1 h2
          dsimp only at h2
          have h3 : (s.transactions ++
              [PayjoinTransaction.pendingFirstConfirmation tx uri.address
                (uri.amount.getD 0) bh bhash]).find?
              (fun t => t.txid == some x) = some t := find?_append_some h1
          rw [h3] at h2
          injection h2 with h2e
          exact le_of_eq (by rw [h2e])
        · intro x t h1 h2
          unfold findTx at h1 h2
          dsimp only at h2
          have h3 : (s.transactions ++
              [PayjoinTransaction.pendingFirstConfirmation tx uri.address
                (uri.amount.getD 0) bh bhash]).find?
              (fun t => t.txid == some x) = some t := find?_append_some h1
          rw [h3] at h2
          cases h2
  | confirm hh txd h =>
    simp only [applyOp] at hok
    cases txd with
    | nil => exact Except.noConfusion hok
    | cons tx0 rl =>
      cases hrm : removeFirst (fun o => o.txid == some tx0.txid)
          s.transactions with
      | none =>
        rw [(by simp [internal_transactions_confirmed, hrm] :
          internal_transactions_confirmed hh (tx0 :: rl) h s.transactions =
            .ok s.transactions)] at hok
        simp only [Except.ok.injEq, Prod.mk.injEq] at hok
        obtain ⟨hs2, hevs⟩ := hok
        subst hs2
        dsimp only
        refine ⟨huniq, ?_, ?_⟩
        · intro x t t2 h1 h2
          rw [h1] at h2
          injection h2 with h2e
          exact le_of_eq (by rw [h2e])
        · intro x t h1 h2
          rw [h1] at h2
          cases h2
      | some pr =>
        obtain ⟨e, rest⟩ := pr
        cases e with
        | pendingThresholdConfirmations t0 r0 a0 b0 c0 f0 g0 =>
          rw [(by simp [internal_transactions_confirmed, hrm] :
            internal_transactions_confirmed hh (tx0 :: rl) h s.transactions =
              .error ())] at hok
          simp at hok
        | pendingFirstConfirmation t0 r0 a0 b0 c0 =>
          rw [(by simp [internal_transactions_confirmed, hrm] :
            internal_transactions_confirmed hh (tx0 :: rl) h s.transactions =
              .ok (rest ++ [.pendingThresholdConfirmations t0 r0 a0 b0 c0
                h hh]))] at hok
          simp only [Except.ok.injEq, Prod.mk.injEq] at hok
          obtain ⟨hs2, hevs⟩ := hok
          subst hs2
          dsimp only
          obtain ⟨l₁, l₂, hl, hrest, hl₁, hpe⟩ := removeFirst_eq_some hrm
          refine ⟨?_, ?_, ?_⟩
          · intro x
            have hu := huniq x
            unfold txidCount at hu ⊢
            rw [countP_append_single, hrest, List.countP_append]
            rw [hl, List.countP_append, List.countP_cons] at hu
            have hsame : ((PayjoinTransaction.pendingThresholdConfirmations
                  t0 r0 a0 b0 c0 h hh).txid == some x) =
                ((PayjoinTransaction.pendingFirstConfirmation t0 r0 a0 b0
                  c0).txid == some x) := rfl
            rw [hsame]
            omega
          · intro x t t2 h1 h2
            unfold findTx at h1 h2
            have hpt := List.find?_some h1
            have hmt : t ∈ s.transactions := List.mem_of_find?_eq_some h1
            by_cases hex : ((PayjoinTransaction.pendingFirstConfirmation t0
                r0 a0 b0 c0).txid == some x) = true
            · have hmemE : PayjoinTransaction.pendingFirstConfirmation t0 r0
                  a0 b0 c0 ∈ s.transactions := by
                rw [hl]
                exact List.mem_append.mpr (Or.inr (List.mem_cons_self _ _))
              have hteq : t = PayjoinTransaction.pendingFirstConfirmation t0
                  r0 a0 b0 c0 :=
                eq_of_countP_le_one (huniq x) hmt hmemE hpt hex
              rw [hteq]
              exact one_le_rank t2
            · have hpt2 := List.find?_some h2
              have hmt2' : t2 ∈ rest ++
                  [PayjoinTransaction.pendingThresholdConfirmations t0 r0 a0
                    b0 c0 h hh] := List.mem_of_find?_eq_some h2
              have ht2ne : t2 ≠ PayjoinTransaction.pendingThresholdConfirmations
                  t0 r0 a0 b0 c0 h hh := by
                intro hcontra
                subst hcontra
                exact hex hpt2
              have hmt2 : t2 ∈ s.transactions := by
                rcases List.mem_append.mp hmt2' with hrr | hss
                · rw [hrest] at hrr
                  rw [hl]
                  rcases List.mem_append.mp hrr with hu1 | hu2
                  · exact List.mem_append.mpr (Or.inl hu1)
                  · exact List.mem_append.mpr
                      (Or.inr (List.mem_cons_of_mem _ hu2))
                · exact absurd (List.mem_singleton.mp hss) ht2ne
              have hteq : t = t2 :=
                eq_of_countP_le_one (huniq x) hmt hmt2 hpt hpt2
              exact le_of_eq (by rw [hteq])
          · intro x t h1 h2
            unfold findTx at h1 h2
            have hpt := List.find?_some h1
            have hmt : t ∈ s.transactions := List.mem_of_find?_eq_some h1
            rw [hl] at hmt
            rcases List.mem_append.mp hmt with hm1 | hm2
            · have hmem : t ∈ rest ++
                  [PayjoinTransaction.pendingThresholdConfirmations t0 r0 a0
                    b0 c0 h hh] :=
                List.mem_append.mpr (Or.inl (by
                  rw [hrest]; exact List.mem_append.mpr (Or.inl hm1)))
              exact absurd hpt (List.find?_eq_none.mp h2 t hmem)
            · rcases List.mem_cons.mp hm2 with rfl | hm3
              · have hmem : PayjoinTransaction.pendingThresholdConfirmations
                    t0 r0 a0 b0 c0 h hh ∈ rest ++
                    [PayjoinTransaction.pendingThresholdConfirmations t0 r0
                      a0 b0 c0 h hh] :=
                  List.mem_append.mpr (Or.inr (List.mem_singleton.mpr rfl))
                have hpp : ((PayjoinTransaction.pendingThresholdConfirmations
                    t0 r0 a0 b0 c0 h hh).txid == some x) = true := hpt
                exact absurd hpp (List.find?_eq_none.mp h2 _ hmem)
              · have hmem : t ∈ rest ++
                    [PayjoinTransaction.pendingThresholdConfirmations t0 r0
                      a0 b0 c0 h hh] :=
                  List.mem_append.mpr (Or.inl (by
                    rw [hrest]; exact List.mem_append.mpr (Or.inr hm3)))
                exact absurd hpt (List.find?_eq_none.mp h2 t hmem)
  | tip hh h =>
    simp only [applyOp, best_block_updated] at hok
    simp only [Except.ok.injEq, Prod.mk.injEq] at hok
    obtain ⟨hs2, hevs⟩ := hok
    subst hs2
    dsimp only
    refine ⟨?_, ?_, ?_⟩
    · intro x
      unfold txidCount
      exact le_trans ((sweep_fst_sublist h s.transactions).countP_le _)
        (huniq x)
    · intro x t t2 h1 h2
      unfold findTx at h1 h2
      have hpt := List.find?_some h1
      have hmt := List.mem_of_find?_eq_some h1
      have hpt2 := List.find?_some h2
      have hmt2 : t2 ∈ s.transactions :=
        (sweep_fst_sublist h s.transactions).subset
          (List.mem_of_find?_eq_some h2)
      have hteq : t = t2 := eq_of_countP_le_one (huniq x) hmt hmt2 hpt hpt2
      exact le_of_eq (by rw [hteq])
    · intro x t h1 h2
      unfold findTx at h1 h2
      have hpt := List.find?_some h1
      have hmt := List.mem_of_find?_eq_some h1
      rcases sweep_mem_kept_or_rank h s.transactions t hmt with hk | hr
      · exact absurd hpt (List.find?_eq_none.mp h2 t hk)
      · exact hr

/-- Witness for C4 (amended) at a concrete confirmation operation advancing
the single tracked entry for txid 7 from rank 1 to rank 2. -/
theorem c4_invariant_amended_witness :
    applyOp (.confirm 100 [⟨7, []⟩] 50)
        ⟨some (10, 99), [.pendingFirstConfirmation ⟨7, []⟩ 1 2 3 4]⟩ =
      .ok (⟨some (10, 99),
        [.pendingThresholdConfirmations ⟨7, []⟩ 1 2 3 4 50 100]⟩, []) ∧
    (PayjoinTransaction.pendingFirstConfirmation ⟨7, []⟩ 1 2 3 4).rank ≤
      (PayjoinTransaction.pendingThresholdConfirmations ⟨7, []⟩ 1 2 3 4 50
        100).rank := by
  refine ⟨rfl, ?_⟩
  have huniq : uniqueTxids [.pendingFirstConfirmation ⟨7, []⟩ 1 2 3 4] :=
    fun x => txidCount_singleton _ x
  exact (c4_invariant_amended (.confirm 100 [⟨7, []⟩] 50)
    ⟨some (10, 99), [.pendingFirstConfirmation ⟨7, []⟩ 1 2 3 4]⟩
    ⟨some (10, 99), [.pendingThresholdConfirmations ⟨7, []⟩ 1 2 3 4 50 100]⟩
    [] rfl huniq trivial).2.1 7 _ _ rfl rfl

end LdkNodePayjoin
